import Mathlib

/-!
Verification of the annotation state and geometry engine of an interactive
2D drawing application.  The definitions below are a shallow embedding of
the TypeScript source: numbers are modelled by exact rationals (ℚ), the
tagged union of annotation kinds by an inductive type, flat coordinate
arrays of even length by lists of pairs, and the React hook state by an
explicit state record with the event handlers as state-transition
functions.  Division is rational division; where the original floating
point semantics of a division by zero matters (Infinity/NaN), a separate
checked variant returning Option is provided, with none standing for a
non-finite result.
-/

/-- Shape subtypes of the shape annotation variant. -/
inductive ShapeType where
  | rectangle
  | ellipse
  | line
  | polygon
  | polyline
  | bezier
deriving DecidableEq, Repr

/-- Fields shared by every annotation variant. -/
structure AnnBase where
  id : String
  color : String
  strokeWidth : ℚ
  isSelected : Bool
  isEditing : Bool
deriving DecidableEq, Repr

/-- The tagged union of the four annotation variants (types/annotations.ts).
The decoded pixel data of an image is modelled as an opaque reference. -/
inductive Annotation where
  | stroke (base : AnnBase) (points : List (ℚ × ℚ)) : Annotation
  | shape (base : AnnBase) (shapeType : ShapeType) (x y width height : ℚ)
      (points : List (ℚ × ℚ)) : Annotation
  | text (base : AnnBase) (text : String) (x y width height : ℚ) (fontSize : ℚ) : Annotation
  | image (base : AnnBase) (imageRef : String) (x y width height : ℚ) : Annotation
deriving DecidableEq, Repr

/-- Discriminant of the tagged union (the type field of the source objects). -/
inductive AnnKind where
  | stroke
  | shape
  | text
  | image
deriving DecidableEq, Repr

/-- Shared fields of an annotation. -/
def Annotation.baseOf : Annotation → AnnBase
  | .stroke b _ => b
  | .shape b _ _ _ _ _ _ => b
  | .text b _ _ _ _ _ _ => b
  | .image b _ _ _ _ _ => b

/-- Discriminant of an annotation. -/
def Annotation.kindOf : Annotation → AnnKind
  | .stroke _ _ => .stroke
  | .shape _ _ _ _ _ _ _ => .shape
  | .text _ _ _ _ _ _ _ => .text
  | .image _ _ _ _ _ _ => .image

/-- Shape subtype, when the variant has one. -/
def Annotation.shapeTypeOf : Annotation → Option ShapeType
  | .shape _ st _ _ _ _ _ => some st
  | _ => none

/-- Point list, for the variants that store one (stroke and shape). -/
def Annotation.pointsOf : Annotation → Option (List (ℚ × ℚ))
  | .stroke _ pts => some pts
  | .shape _ _ _ _ _ _ pts => some pts
  | _ => none

/-- Stored x origin, for the variants that have one (shape, text, image). -/
def Annotation.xOf : Annotation → Option ℚ
  | .shape _ _ x _ _ _ _ => some x
  | .text _ _ x _ _ _ _ => some x
  | .image _ _ x _ _ _ => some x
  | .stroke _ _ => none

/-- Stored y origin, for the variants that have one. -/
def Annotation.yOf : Annotation → Option ℚ
  | .shape _ _ _ y _ _ _ => some y
  | .text _ _ _ y _ _ _ => some y
  | .image _ _ _ y _ _ => some y
  | .stroke _ _ => none

/-- Stored width, for the variants that have one. -/
def Annotation.widthOf : Annotation → Option ℚ
  | .shape _ _ _ _ w _ _ => some w
  | .text _ _ _ _ w _ _ => some w
  | .image _ _ _ _ w _ => some w
  | .stroke _ _ => none

/-- Stored height, for the variants that have one. -/
def Annotation.heightOf : Annotation → Option ℚ
  | .shape _ _ _ _ _ h _ => some h
  | .text _ _ _ _ _ h _ => some h
  | .image _ _ _ _ _ h => some h
  | .stroke _ _ => none

/-- Text content of a text annotation. -/
def Annotation.textOf : Annotation → Option String
  | .text _ t _ _ _ _ _ => some t
  | _ => none

/-- Font size of a text annotation. -/
def Annotation.fontSizeOf : Annotation → Option ℚ
  | .text _ _ _ _ _ _ fs => some fs
  | _ => none

/-- Pixel data reference of an image annotation. -/
def Annotation.imageRefOf : Annotation → Option String
  | .image _ r _ _ _ _ => some r
  | _ => none

/-- Axis-aligned bounding box, always derived from the geometry. -/
structure Bounds where
  x : ℚ
  y : ℚ
  width : ℚ
  height : ℚ
deriving DecidableEq, Repr

/-- Math.min over a spread array: minimum of a list, 0 for the empty list
(the empty case is always guarded in the source). -/
def listMin : List ℚ → ℚ
  | [] => 0
  | q :: qs => qs.foldl min q

/-- Math.max over a spread array, 0 for the empty list. -/
def listMax : List ℚ → ℚ
  | [] => 0
  | q :: qs => qs.foldl max q

/-- Bounding box of a point list: min/max over the x and y coordinates,
the zero rectangle when the list is empty (useDrawingState.ts, the
stroke and line-shape arms of calculateBounds, which are identical). -/
def boundsOfPoints (pts : List (ℚ × ℚ)) : Bounds :=
  match pts with
  | [] => ⟨0, 0, 0, 0⟩
  | _ :: _ =>
    let xs := pts.map Prod.fst
    let ys := pts.map Prod.snd
    ⟨listMin xs, listMin ys, listMax xs - listMin xs, listMax ys - listMin ys⟩

/-- calculateBounds (useDrawingState.ts): derived bounds per variant. -/
def calculateBounds : Annotation → Bounds
  | .stroke _ pts => boundsOfPoints pts
  | .text _ _ x y w h _ => ⟨x, y, w, h⟩
  | .image _ _ x y w h => ⟨x, y, w, h⟩
  | .shape _ st x y w h pts =>
    if st = ShapeType.rectangle ∨ st = ShapeType.ellipse then ⟨x, y, w, h⟩
    else boundsOfPoints pts

/-- The unchanged-anchor point and the signed width/height rates computed by
the anchor switch of resizeAnnotation (useDrawingState.ts, lines 126-184):
result is ((unchangedX, unchangedY), (widthRate, heightRate)). -/
def resizeParams (anchorIndex : Nat) (b : Bounds) (nx ny : ℚ) : (ℚ × ℚ) × (ℚ × ℚ) :=
  match anchorIndex with
  | 0 => ((b.x + b.width, b.y + b.height),
          ((b.x + b.width - nx) / b.width, (b.y + b.height - ny) / b.height))
  | 1 => ((b.x, b.y + b.height), (1, (b.y + b.height - ny) / b.height))
  | 2 => ((b.x, b.y + b.height), ((nx - b.x) / b.width, (b.y + b.height - ny) / b.height))
  | 3 => ((b.x, b.y), ((nx - b.x) / b.width, 1))
  | 4 => ((b.x, b.y), ((nx - b.x) / b.width, (ny - b.y) / b.height))
  | 5 => ((b.x, b.y), (1, (ny - b.y) / b.height))
  | 6 => ((b.x + b.width, b.y), ((b.x + b.width - nx) / b.width, (ny - b.y) / b.height))
  | 7 => ((b.x + b.width, b.y), ((b.x + b.width - nx) / b.width, 1))
  | _ => ((b.x, b.y), (1, 1))

/-- New origin of a rect-like annotation after a resize, per anchor index.
The source repeats this switch verbatim in the shape and the text/image
branches of resizeAnnotation. -/
def resizeOrigin (anchorIndex : Nat) (ux uy nw nh : ℚ) : ℚ × ℚ :=
  match anchorIndex with
  | 0 => (ux - nw, uy - nh)
  | 1 => (ux, uy - nh)
  | 2 => (ux, uy - nh)
  | 3 => (ux, uy)
  | 4 => (ux, uy)
  | 5 => (ux, uy)
  | 6 => (ux - nw, uy)
  | 7 => (ux - nw, uy)
  | _ => (ux, uy)

/-- resizeAnnotation (useDrawingState.ts, lines 111-325): rate-based resize
of an annotation from its original snapshot, driven by the dragged anchor
index and the current pointer position (nx, ny). -/
def resizeAnnotation (anchorIndex : Nat) (a : Annotation) (nx ny : ℚ) : Annotation :=
  let b := calculateBounds a
  let p := resizeParams anchorIndex b nx ny
  let ux := p.1.1
  let uy := p.1.2
  let wr := p.2.1
  let hr := p.2.2
  match a with
  | .shape base st x y w h pts =>
    if st = ShapeType.rectangle ∨ st = ShapeType.ellipse then
      let nw := b.width * wr
      let nh := b.height * hr
      let o := resizeOrigin anchorIndex ux uy nw nh
      .shape base st o.1 o.2 nw nh pts
    else
      .shape base st x y w h
        (pts.map fun q => (ux + (q.1 - ux) * wr, uy + (q.2 - uy) * hr))
  | .text base t _ _ _ _ fs =>
    let nw := b.width * wr
    let nh := b.height * hr
    let o := resizeOrigin anchorIndex ux uy nw nh
    .text base t o.1 o.2 nw nh fs
  | .image base r _ _ _ _ =>
    let nw := b.width * wr
    let nh := b.height * hr
    let o := resizeOrigin anchorIndex ux uy nw nh
    .image base r o.1 o.2 nw nh
  | .stroke base pts =>
    .stroke base (pts.map fun q => (ux + (q.1 - ux) * wr, uy + (q.2 - uy) * hr))

/-- IEEE-style checked division: none stands for the non-finite value
(Infinity or NaN) that a JavaScript division by zero produces. -/
def jsDiv (a b : ℚ) : Option ℚ :=
  if b = 0 then none else some (a / b)

/-- The anchor switch of resizeAnnotation with its divisions made explicit:
returns none exactly when a rate computation divides by a zero original
extent, which under the source's floating-point semantics puts Infinity or
NaN into the rate. -/
def resizeParamsChecked (anchorIndex : Nat) (b : Bounds) (nx ny : ℚ) :
    Option ((ℚ × ℚ) × (ℚ × ℚ)) :=
  match anchorIndex with
  | 0 => do
    let wr ← jsDiv (b.x + b.width - nx) b.width
    let hr ← jsDiv (b.y + b.height - ny) b.height
    pure ((b.x + b.width, b.y + b.height), (wr, hr))
  | 1 => do
    let hr ← jsDiv (b.y + b.height - ny) b.height
    pure ((b.x, b.y + b.height), (1, hr))
  | 2 => do
    let wr ← jsDiv (nx - b.x) b.width
    let hr ← jsDiv (b.y + b.height - ny) b.height
    pure ((b.x, b.y + b.height), (wr, hr))
  | 3 => do
    let wr ← jsDiv (nx - b.x) b.width
    pure ((b.x, b.y), (wr, 1))
  | 4 => do
    let wr ← jsDiv (nx - b.x) b.width
    let hr ← jsDiv (ny - b.y) b.height
    pure ((b.x, b.y), (wr, hr))
  | 5 => do
    let hr ← jsDiv (ny - b.y) b.height
    pure ((b.x, b.y), (1, hr))
  | 6 => do
    let wr ← jsDiv (b.x + b.width - nx) b.width
    let hr ← jsDiv (ny - b.y) b.height
    pure ((b.x + b.width, b.y), (wr, hr))
  | 7 => do
    let wr ← jsDiv (b.x + b.width - nx) b.width
    pure ((b.x + b.width, b.y), (wr, 1))
  | _ => pure ((b.x, b.y), (1, 1))

/-- The corner of a bounding box designated as the unchanged reference
point for each anchor index: the table of the anchor switch in
resizeAnnotation (bottom-right for anchor 0, top-left for anchor 4, …). -/
def refCorner (anchorIndex : Nat) (b : Bounds) : ℚ × ℚ :=
  match anchorIndex with
  | 0 => (b.x + b.width, b.y + b.height)
  | 1 => (b.x, b.y + b.height)
  | 2 => (b.x, b.y + b.height)
  | 3 => (b.x, b.y)
  | 4 => (b.x, b.y)
  | 5 => (b.x, b.y)
  | 6 => (b.x + b.width, b.y)
  | 7 => (b.x + b.width, b.y)
  | _ => (b.x, b.y)

/-- Variants whose resize updates the stored x/y/width/height directly
(rectangle, ellipse, text, image), as opposed to scaling a point list. -/
def isRectFamily : Annotation → Bool
  | .shape _ st _ _ _ _ _ => decide (st = ShapeType.rectangle ∨ st = ShapeType.ellipse)
  | .text _ _ _ _ _ _ _ => true
  | .image _ _ _ _ _ _ => true
  | .stroke _ _ => false

/-- distanceToLineSegment (geometry.ts), squared: the source's
projection-clamp formula, returning the squared Euclidean distance (the
source takes the final square root; every caller only compares the result
with a constant threshold, so squared comparisons are equivalent). -/
def distanceToLineSegmentSq (x y x1 y1 x2 y2 : ℚ) : ℚ :=
  let a := x - x1
  let b := y - y1
  let c := x2 - x1
  let d := y2 - y1
  let dot := a * c + b * d
  let lenSq := c * c + d * d
  let param := if lenSq ≠ 0 then dot / lenSq else -1
  let q := if param < 0 then (x1, y1)
           else if 1 < param then (x2, y2)
           else (x1 + param * c, y1 + param * d)
  (x - q.1) * (x - q.1) + (y - q.2) * (y - q.2)

/-- distanceToBezierCurve (geometry.ts), squared: minimum squared distance
to 51 samples of the quadratic bezier through the first three control
points; none models the Infinity returned for fewer than three points. -/
def distanceToBezierCurveSq (x y : ℚ) (pts : List (ℚ × ℚ)) : Option ℚ :=
  match pts with
  | p0 :: p1 :: p2 :: _ =>
    let samples := (List.range 51).map fun i =>
      let t : ℚ := (i : ℚ) / 50
      let u := 1 - t
      let bx := u * u * p0.1 + 2 * u * t * p1.1 + t * t * p2.1
      let bz := u * u * p0.2 + 2 * u * t * p1.2 + t * t * p2.2
      (x - bx) * (x - bx) + (y - bz) * (y - bz)
    some (listMin samples)
  | _ => none

/-- Consecutive segments of a vertex list. -/
def polySegments (pts : List (ℚ × ℚ)) : List ((ℚ × ℚ) × (ℚ × ℚ)) :=
  pts.zip pts.tail

/-- Polygon/polyline arm of the hit test: any consecutive segment within
the threshold, plus the closing segment for a polygon; requires at least
3 vertices (points.length >= 6 in the flat source array). -/
def polyHit (closed : Bool) (x y : ℚ) (pts : List (ℚ × ℚ)) : Bool :=
  if 3 ≤ pts.length then
    (polySegments pts).any
      (fun s => decide (distanceToLineSegmentSq x y s.1.1 s.1.2 s.2.1 s.2.2 < 100)) ||
    (closed &&
      match pts.getLast?, pts.head? with
      | some l, some h0 => decide (distanceToLineSegmentSq x y l.1 l.2 h0.1 h0.2 < 100)
      | _, _ => false)
  else false

/-- isPointInAnnotation (geometry.ts, the edge-based revision): hit test of
a pointer position against one annotation.  All distance comparisons are
squared (threshold 10 becomes 100); the ellipse test |dist - radius| < 10
is rationalized exactly as radius - 10 < dist and dist < radius + 10 on
squares. -/
def isPointInAnnotation (x y : ℚ) (a : Annotation) : Bool :=
  match a with
  | .stroke _ pts =>
    -- the source loop runs i < points.length - 2, so the last pair is not tested
    pts.dropLast.any fun q =>
      decide ((x - q.1) * (x - q.1) + (y - q.2) * (y - q.2) < 100)
  | .shape _ st sx sy sw sh pts =>
    match st with
    | .ellipse =>
      let cx := sx + sw / 2
      let cy := sy + sh / 2
      let r := max sw sh / 2
      let s := (x - cx) * (x - cx) + (y - cy) * (y - cy)
      decide ((r - 10 < 0 ∨ (r - 10) * (r - 10) < s) ∧ 0 < r + 10 ∧ s < (r + 10) * (r + 10))
    | .rectangle =>
      decide ((|y - sy| ≤ 10 ∧ sx ≤ x ∧ x ≤ sx + sw) ∨
              (|y - (sy + sh)| ≤ 10 ∧ sx ≤ x ∧ x ≤ sx + sw) ∨
              (|x - sx| ≤ 10 ∧ sy ≤ y ∧ y ≤ sy + sh) ∨
              (|x - (sx + sw)| ≤ 10 ∧ sy ≤ y ∧ y ≤ sy + sh))
    | .line =>
      match pts with
      | q1 :: q2 :: _ => decide (distanceToLineSegmentSq x y q1.1 q1.2 q2.1 q2.2 < 100)
      | _ => false
    | .polygon => polyHit true x y pts
    | .polyline => polyHit false x y pts
    | .bezier =>
      match distanceToBezierCurveSq x y pts with
      | some dsq => decide (dsq < 100)
      | none => false
  | .text _ _ tx ty tw th _ =>
    decide (tx ≤ x ∧ x ≤ tx + tw ∧ ty ≤ y ∧ y ≤ ty + th)
  | .image _ _ ix iy iw ih =>
    decide (ix ≤ x ∧ x ≤ ix + iw ∧ iy ≤ y ∧ y ≤ iy + ih)

/-- Spec-side predicate for claim C9, following the spec's words rather
than the source: the point is within the 10px threshold of one of the
rectangle's four edges, edge distance being the point-to-segment distance
(squared comparison against 100). -/
def specNearRectEdgeSq (x y rx ry rw rh : ℚ) : Bool :=
  decide (distanceToLineSegmentSq x y rx ry (rx + rw) ry ≤ 100) ||
  decide (distanceToLineSegmentSq x y rx (ry + rh) (rx + rw) (ry + rh) ≤ 100) ||
  decide (distanceToLineSegmentSq x y rx ry rx (ry + rh) ≤ 100) ||
  decide (distanceToLineSegmentSq x y (rx + rw) ry (rx + rw) (ry + rh) ≤ 100)

/-- isAnnotationInRect (geometry.ts): marquee selection test — any stored
point inside the normalized rectangle for strokes, origin inside for the
other variants. -/
def isAnnotationInRect (a : Annotation) (r : Bounds) : Bool :=
  let minX := min r.x (r.x + r.width)
  let maxX := max r.x (r.x + r.width)
  let minY := min r.y (r.y + r.height)
  let maxY := max r.y (r.y + r.height)
  match a with
  | .stroke _ pts =>
    pts.any fun q => decide (minX ≤ q.1 ∧ q.1 ≤ maxX ∧ minY ≤ q.2 ∧ q.2 ≤ maxY)
  | .text _ _ tx ty _ _ _ => decide (minX ≤ tx ∧ tx ≤ maxX ∧ minY ≤ ty ∧ ty ≤ maxY)
  | .image _ _ ix iy _ _ => decide (minX ≤ ix ∧ ix ≤ maxX ∧ minY ≤ iy ∧ iy ≤ maxY)
  | .shape _ _ sx sy _ _ _ => decide (minX ≤ sx ∧ sx ≤ maxX ∧ minY ≤ sy ∧ sy ≤ maxY)

/-- Current tool. -/
inductive Tool where
  | select
  | brush
  | shape
  | text
  | eraser
  | ai
deriving DecidableEq, Repr

/-- Live selection/marquee rectangle (may have negative extent while
dragging). -/
structure SelRect where
  x : ℚ
  y : ℚ
  width : ℚ
  height : ℚ
deriving DecidableEq, Repr

/-- Drag gesture state. -/
structure DragState where
  isDragging : Bool
  startPoint : Option (ℚ × ℚ)
  offset : ℚ × ℚ
deriving DecidableEq, Repr

/-- Resize gesture state (source field originalAnnotation is named
originalAnn here). -/
structure ResizeState where
  isResizing : Bool
  startPoint : Option (ℚ × ℚ)
  currentPoint : Option (ℚ × ℚ)
  anchorIndex : Option Nat
  originalAnn : Option Annotation
deriving DecidableEq, Repr

/-- The state of the useDrawingState hook that the embedded handlers read
and write.  currentPoints is kept as the source's flat coordinate array
because the handlers branch on its flat length. -/
structure AppState where
  tool : Tool
  annotations : List Annotation
  history : List (List Annotation)
  historyStep : Nat
  color : String
  strokeWidth : ℚ
  isDrawing : Bool
  currentPoints : List ℚ
  selectionRect : Option SelRect
  dragState : DragState
  resizeState : ResizeState
  selectedShapeType : ShapeType
  editingAnnotationId : Option String
  editingControlPointIndex : Option Nat
  isDrawingLine : Bool
  linePoints : List (ℚ × ℚ)
deriving DecidableEq, Repr

/-- saveToHistory (useDrawingState.ts, lines 372-377): truncate the log to
the cursor, append the snapshot, move the cursor to the new last index. -/
def saveToHistory (newAnns : List Annotation) (st : AppState) : AppState :=
  let newHistory := st.history.take (st.historyStep + 1) ++ [newAnns]
  { st with history := newHistory, historyStep := newHistory.length - 1 }

/-- handleUndo (useDrawingState.ts, lines 409-414).  The source reads
history[historyStep - 1]; the app invariant historyStep < history.length
keeps the index in bounds, and the model totalizes it with getD. -/
def handleUndo (st : AppState) : AppState :=
  if 0 < st.historyStep then
    { st with historyStep := st.historyStep - 1,
              annotations := st.history.getD (st.historyStep - 1) [] }
  else st

/-- handleRedo (useDrawingState.ts, lines 416-421). -/
def handleRedo (st : AppState) : AppState :=
  if st.historyStep < st.history.length - 1 then
    { st with historyStep := st.historyStep + 1,
              annotations := st.history.getD (st.historyStep + 1) [] }
  else st

/-- One user-visible commit: every committing call site of the source pairs
setAnnotations(newAnnotations) with saveToHistory(newAnnotations). -/
def commitSnapshot (snap : List Annotation) (st : AppState) : AppState :=
  saveToHistory snap { st with annotations := snap }

/-- A sequence of commits, one per completed user action. -/
def commitList (l : List (List Annotation)) (st : AppState) : AppState :=
  l.foldl (fun s snap => commitSnapshot snap s) st

/-- createAnnotation (useDrawingState.ts, lines 49-55): reset the selection
and editing flags of a freshly created annotation. -/
def createAnnotation (a : Annotation) : Annotation :=
  match a with
  | .stroke b pts => .stroke { b with isSelected := false, isEditing := false } pts
  | .shape b st x y w h pts =>
    .shape { b with isSelected := false, isEditing := false } st x y w h pts
  | .text b t x y w h fs =>
    .text { b with isSelected := false, isEditing := false } t x y w h fs
  | .image b r x y w h =>
    .image { b with isSelected := false, isEditing := false } r x y w h

/-- The per-annotation body of handleDuplicate: spread-copy with a fresh id,
then x += 20 and y += 20 only when the variant has x/y fields ('x' in
newAnn — a stroke has none), then createAnnotation. -/
def dupOne (newId : String) (a : Annotation) : Annotation :=
  match a with
  | .stroke b pts => createAnnotation (.stroke { b with id := newId } pts)
  | .shape b st x y w h pts =>
    createAnnotation (.shape { b with id := newId } st (x + 20) (y + 20) w h pts)
  | .text b t x y w h fs =>
    createAnnotation (.text { b with id := newId } t (x + 20) (y + 20) w h fs)
  | .image b r x y w h =>
    createAnnotation (.image { b with id := newId } r (x + 20) (y + 20) w h)

/-- handleDuplicate (useDrawingState.ts, lines 438-449).  The source draws
each clone id from Date.now() and Math.random(); the generator is passed in
as a parameter. -/
def handleDuplicate (freshId : Annotation → String) (st : AppState) : AppState :=
  let toDup := st.annotations.filter fun a => (a.baseOf).isSelected
  let dups := toDup.map fun a => dupOne (freshId a) a
  let newAnns := st.annotations ++ dups
  saveToHistory newAnns { st with annotations := newAnns }

/-- selectAnnotations (useDrawingState.ts, lines 390-402) with the default
clearOthers = true: mark the listed ids selected (editing iff exactly one
id is given) and clear the flags of every other annotation. -/
def selectAnnsById (ids : List String) (anns : List Annotation) : List Annotation :=
  anns.map fun a =>
    if (a.baseOf).id ∈ ids then
      match a with
      | .stroke b pts => .stroke { b with isSelected := true, isEditing := decide (ids.length = 1) } pts
      | .shape b st x y w h pts =>
        .shape { b with isSelected := true, isEditing := decide (ids.length = 1) } st x y w h pts
      | .text b t x y w h fs =>
        .text { b with isSelected := true, isEditing := decide (ids.length = 1) } t x y w h fs
      | .image b r x y w h =>
        .image { b with isSelected := true, isEditing := decide (ids.length = 1) } r x y w h
    else createAnnotation a

/-- Pair up a flat even-length coordinate array (a trailing odd coordinate,
which the source never produces, is dropped). -/
def toPairs : List ℚ → List (ℚ × ℚ)
  | x :: y :: rest => (x, y) :: toPairs rest
  | _ => []

/-- handleMouseUp (DrawingApp.tsx, lines 667-765) as a state transition.
newId stands for the Date.now()-derived id of the annotation the handler
may create.  All reads of annotations, history and historyStep inside one
invocation use the handler-entry values (React useCallback closure), and
functional setState updates compose left to right, exactly as in the
source. -/
def handleMouseUp (newId : String) (st0 : AppState) : AppState :=
  if st0.isDrawing = false then st0 else
  let saveH := fun (snap : List Annotation) (s : AppState) =>
    let newHistory := st0.history.take (st0.historyStep + 1) ++ [snap]
    { s with history := newHistory, historyStep := newHistory.length - 1 }
  let s1 :=
    if st0.resizeState.isResizing then
      saveH st0.annotations { st0 with resizeState := ⟨false, none, none, none, none⟩ }
    else st0
  let s2 :=
    if st0.dragState.isDragging then
      saveH st0.annotations
        { s1 with dragState := { s1.dragState with isDragging := false, offset := (0, 0) } }
    else s1
  let s3 := { s2 with editingAnnotationId := none, editingControlPointIndex := none,
                      isDrawing := false }
  let s4 :=
    if st0.tool = Tool.brush ∧ 0 < st0.currentPoints.length then
      let newAnn := createAnnotation
        (.stroke ⟨newId, st0.color, st0.strokeWidth, false, false⟩ (toPairs st0.currentPoints))
      let newAnns := st0.annotations ++ [newAnn]
      saveH newAnns { s3 with annotations := newAnns, currentPoints := [] }
    else if st0.tool = Tool.shape ∧ st0.currentPoints.length = 4 ∧
            st0.selectedShapeType ≠ ShapeType.polygon ∧
            st0.selectedShapeType ≠ ShapeType.polyline ∧
            st0.selectedShapeType ≠ ShapeType.bezier then
      match st0.currentPoints with
      | [x1, y1, x2, y2] =>
        let newAnn := createAnnotation
          (.shape ⟨newId, st0.color, st0.strokeWidth, false, false⟩ st0.selectedShapeType
            (min x1 x2) (min y1 y2) |x2 - x1| |y2 - y1| [(x1, y1), (x2, y2)])
        let newAnns := st0.annotations ++ [newAnn]
        let s5 := saveH newAnns { s3 with annotations := newAnns, currentPoints := [] }
        if st0.isDrawingLine then { s5 with isDrawingLine := false, linePoints := [] } else s5
      | _ => s3
    else if st0.tool = Tool.select then
      match st0.selectionRect with
      | some r =>
        let selIds := (st0.annotations.filter fun a =>
          isAnnotationInRect a ⟨r.x, r.y, r.width, r.height⟩).map fun a => (a.baseOf).id
        { s3 with annotations := selectAnnsById selIds s3.annotations, selectionRect := none }
      | none => s3
    else if st0.tool = Tool.text then
      match st0.selectionRect with
      | some r =>
        let newText := createAnnotation
          (.text ⟨newId, st0.color, 0, false, false⟩ "" r.x r.y
            (max |r.width| 200) (max |r.height| 50) 24)
        let newAnns := st0.annotations ++ [newText]
        saveH newAnns { s3 with annotations := newAnns, selectionRect := none }
      | none => s3
    else s3
  { s4 with dragState := { s4.dragState with startPoint := none } }

/-- A plain unselected annotation base used by concrete test states. -/
def baseA : AnnBase := ⟨"a1", "#000000", 3, false, false⟩

/-- A selected annotation base used by concrete test states. -/
def baseSel : AnnBase := ⟨"s1", "#ff0000", 3, true, false⟩

/-- The rectangle of the spec's resize scenario, at (0,0) with extent 150. -/
def rectC1 : Annotation := .shape baseA ShapeType.rectangle 0 0 150 150 [(0, 0), (150, 150)]

/-- A two-point stroke spanning the same region as rectC1. -/
def strokeC2 : Annotation := .stroke baseA [(0, 0), (150, 150)]

/-- A vertical line shape: its bounds have zero width. -/
def lineC3 : Annotation := .shape baseA ShapeType.line 5 0 0 10 [(5, 0), (5, 10)]

/-- A selected stroke. -/
def strokeSel : Annotation := .stroke baseSel [(0, 0), (10, 10)]

/-- An unselected stroke. -/
def annA : Annotation := .stroke baseA [(0, 0), (1, 1)]

/-- Another unselected stroke. -/
def annB : Annotation := .stroke ⟨"a2", "#000000", 3, false, false⟩ [(2, 2), (3, 3)]

/-- A rectangle at the origin with extent 100. -/
def rectC9 : Annotation := .shape baseA ShapeType.rectangle 0 0 100 100 [(0, 0), (100, 100)]

/-- The initial state of the useDrawingState hook: brush tool, empty
collection, history [[]] with cursor 0. -/
def stInit : AppState :=
  ⟨Tool.brush, [], [[]], 0, "#000000", 3, false, [], none,
   ⟨false, none, (0, 0)⟩, ⟨false, none, none, none, none⟩,
   ShapeType.rectangle, none, none, false, []⟩

/-- A state whose history cursor sits strictly before the last entry. -/
def stC4 : AppState :=
  { stInit with annotations := [annA],
                history := [[], [annA], [annA, annB]], historyStep := 1 }

/-- A state about to undo into a snapshot that contains a selected
annotation (such snapshots are committed, e.g., by a color change of a
selection). -/
def stC6 : AppState :=
  { stInit with tool := Tool.select, annotations := [strokeSel, annB],
                history := [[strokeSel], [strokeSel, annB]], historyStep := 1 }

/-- Two commits used by the history round-trip witness. -/
def lC5 : List (List Annotation) := [[annA], [annA, annB]]

/-- A shape-tool state whose 4-value preview starts and ends at (10,10):
the degenerate drag-out-and-back gesture. -/
def stC7 : AppState :=
  { stInit with tool := Tool.shape, isDrawing := true,
                currentPoints := [10, 10, 10, 10] }

/-- The zero-size rectangle annotation that stC7's pointer-up commits. -/
def zeroShapeC7 : Annotation :=
  .shape ⟨"id1", "#000000", 3, false, false⟩ ShapeType.rectangle 10 10 0 0
    [(10, 10), (10, 10)]

/-- A brush gesture that accumulated no points. -/
def stBrushEmpty : AppState := { stInit with isDrawing := true }

/-- A shape-tool click-release without any pointer move: only the 2-value
start point was recorded. -/
def stShapeClick : AppState :=
  { stInit with tool := Tool.shape, isDrawing := true, currentPoints := [10, 10] }

/-- A state with one selected stroke, about to be duplicated. -/
def stC8 : AppState := { stInit with annotations := [strokeSel] }

/-- The clone that duplicating strokeSel appends: fresh id, flags reset,
and the point list unchanged (not offset). -/
def strokeDupC8 : Annotation := .stroke ⟨"dup1", "#ff0000", 3, false, false⟩ [(0, 0), (10, 10)]

/-- Claim C10 (confirmed): for every annotation, anchor index and pointer
position, resizeAnnotation preserves all non-geometry fields — id, type,
shapeType, color, strokeWidth, isSelected, isEditing, and also the text,
fontSize and image payloads; only x, y, width, height and points may
differ. -/
theorem c10_resize_frame (i : Nat) (a : Annotation) (nx ny : ℚ) :
    ( resizeAnnotation i a nx ny).baseOf = a.baseOf ∧
    ( resizeAnnotation i a nx ny).kindOf = a.kindOf ∧
    ( resizeAnnotation i a nx ny).shapeTypeOf = a.shapeTypeOf ∧
    ( resizeAnnotation i a nx ny).textOf = a.textOf ∧
    ( resizeAnnotation i a nx ny).fontSizeOf = a.fontSizeOf ∧
    ( resizeAnnotation i a nx ny).imageRefOf = a.imageRefOf := by
  cases a <;>
    simp only [ resizeAnnotation] <;>
    (try split) <;>
    simp [ Annotation.baseOf, Annotation.kindOf, Annotation.shapeTypeOf, Annotation.textOf,
      Annotation.fontSizeOf, Annotation.imageRefOf]

/-- Claim C4 (confirmed): saveToHistory truncates the history log to
entries [0..cursor], appends the new snapshot, and sets the cursor to the
new last index; committing while the cursor is at c < history.length - 1
discards all redo entries and leaves history.length = c + 2 with
cursor = c + 1. -/
theorem c4_commit_truncates (st : AppState) (snap : List Annotation)
    (hc : st.historyStep + 1 < st.history.length) :
    (saveToHistory snap st).history = st.history.take (st.historyStep + 1) ++ [snap] ∧
    (saveToHistory snap st).history.length = st.historyStep + 2 ∧
    (saveToHistory snap st).historyStep = st.historyStep + 1 := by
  refine ⟨rfl, ?_, ?_⟩ <;> simp [saveToHistory, List.length_take] <;> omega

/-- Witness for C4 at a concrete state whose cursor sits strictly before
the last history entry. -/
theorem c4_witness :
    stC4.historyStep + 1 < stC4.history.length ∧
    (saveToHistory [annA, annB, annA] stC4).history.length = stC4.historyStep + 2 ∧
    (saveToHistory [annA, annB, annA] stC4).historyStep = stC4.historyStep + 1 :=
  ⟨by decide,
   (c4_commit_truncates stC4 [annA, annB, annA] (by decide)).2.1,
   (c4_commit_truncates stC4 [annA, annB, annA] (by decide)).2.2⟩

/-- Claim C6 (corrected): handleUndo is a no-op when the history cursor
is 0; otherwise it decrements the cursor and installs history[cursor] as
the new working collection.  Contrary to the original claim it does NOT
clear the selection: the restored snapshot's selection flags are kept
exactly as stored. -/
theorem c6_amended (st : AppState) :
    (st.historyStep = 0 → handleUndo st = st) ∧
    (0 < st.historyStep →
      (handleUndo st).historyStep = st.historyStep - 1 ∧
      (handleUndo st).annotations = st.history.getD (st.historyStep - 1) [] ∧
      (handleUndo st).history = st.history) := by
  constructor
  · intro h; simp [handleUndo, h]
  · intro h; simp [handleUndo, h]

/-- Witness for C6 at a concrete state with cursor 1. -/
theorem c6_witness :
    0 < stC6.historyStep ∧ (handleUndo stC6).historyStep = stC6.historyStep - 1 :=
  ⟨by decide, ((c6_amended stC6).2 (by decide)).1⟩

/-- Counterexample for C6 as stated: undoing into a snapshot that
contains a selected annotation (such snapshots are committed, e.g., by a
color change of a selection) leaves that annotation selected in the
resulting working collection — the selection is not cleared. -/
theorem c6_counterexample :
    (handleUndo stC6).annotations = [strokeSel] ∧
    ( Annotation.baseOf strokeSel).isSelected = true := by
  constructor
  · norm_num [handleUndo, stC6, stInit]
  · decide

/-- Claim C3 (code_bug): evaluation at the failing input.  The bounds of
the vertical line lineC3 have zero width, and the checked rate computation
of resizeAnnotation at anchor 4 returns none — the code divides by the
zero extent with no guard, which under the source's floating-point
semantics puts Infinity into widthRate and NaN into the scaled
coordinates, contrary to the claimed rate = 1 no-op guard. -/
theorem c3_unguarded_zero_extent :
    (calculateBounds lineC3).width = 0 ∧
    resizeParamsChecked 4 (calculateBounds lineC3) 9 10 = none := by
  norm_num [calculateBounds, lineC3, boundsOfPoints, listMin, listMax,
    resizeParamsChecked, jsDiv]

/-- Claim C1 (corrected): dragging the top-left anchor (index 0) of a
rectangle or ellipse past the bottom-right corner stores an UN-normalized
shape: the new origin is the pointer position and width/height are
negative (x + w - nx < 0, y + h - ny < 0), the span endpoints
x + width and y + height still equalling the original bottom-right
corner.  No normalization to a positive-extent top-left form occurs. -/
theorem c1_amended (b : AnnBase) (st : ShapeType) (pts : List (ℚ × ℚ)) (x y w h nx ny : ℚ)
    (hst : st = ShapeType.rectangle ∨ st = ShapeType.ellipse)
    (hw : 0 < w) (hh : 0 < h) (hx : x + w < nx) (hy : y + h < ny) :
    resizeAnnotation 0 (.shape b st x y w h pts) nx ny =
      .shape b st nx ny (x + w - nx) (y + h - ny) pts ∧
    x + w - nx < 0 ∧ y + h - ny < 0 := by
  have hw0 : w ≠ 0 := ne_of_gt hw
  have hh0 : h ≠ 0 := ne_of_gt hh
  refine ⟨?_, by linarith, by linarith⟩
  simp only [ resizeAnnotation, calculateBounds, resizeParams, resizeOrigin, if_pos hst,
    Annotation.shape.injEq, true_and, and_true]
  refine ⟨?_, ?_, ?_, ?_⟩ <;> field_simp

/-- Witness for C1 at the spec's scenario rectangle (0,0,150,150) with
the pointer at (200,200). -/
theorem c1_witness :
    (0 : ℚ) + 150 < 200 ∧
    resizeAnnotation 0 (.shape baseA ShapeType.rectangle 0 0 150 150 [(0, 0), (150, 150)]) 200 200 =
      .shape baseA ShapeType.rectangle 200 200 (0 + 150 - 200) (0 + 150 - 200) [(0, 0), (150, 150)] :=
  ⟨by norm_num,
   (c1_amended baseA ShapeType.rectangle [(0, 0), (150, 150)] 0 0 150 150 200 200
     (Or.inl rfl) (by norm_num) (by norm_num) (by norm_num) (by norm_num)).1⟩

/-- Counterexample for C1 as stated: the spec's scenario — resizing the
rectangle at (0,0,150,150) via anchor 0 to pointer (200,200) — yields
the stored shape {x:200, y:200, width:-50, height:-50}, not the claimed
normalized {x:150, y:150, width:50, height:50}; the stored width is
negative. -/
theorem c1_counterexample :
    resizeAnnotation 0 rectC1 200 200 =
      .shape baseA ShapeType.rectangle 200 200 (-50) (-50) [(0, 0), (150, 150)] ∧
    resizeAnnotation 0 rectC1 200 200 ≠
      .shape baseA ShapeType.rectangle 150 150 50 50 [(0, 0), (150, 150)] ∧
    Annotation.widthOf ( resizeAnnotation 0 rectC1 200 200) = some (-50) := by
  have h : resizeAnnotation 0 rectC1 200 200 =
      .shape baseA ShapeType.rectangle 200 200 (-50) (-50) [(0, 0), (150, 150)] := by
    norm_num [ resizeAnnotation, calculateBounds, resizeParams, resizeOrigin, rectC1]
  refine ⟨h, ?_, ?_⟩
  · rw [h]; simp
  · rw [h]; rfl

lemma getD_last {α : Type} : ∀ (l : List α) (d d' : α), l ≠ [] →
    l.getD (l.length - 1) d = l.getLastD d' := by
  intro l
  induction l with
  | nil => simp
  | cons x xs ih =>
    intro d d' _
    by_cases hxs : xs = []
    · subst hxs; simp [List.getD]
    · obtain ⟨m, hm⟩ : ∃ m, xs.length = m + 1 :=
        ⟨xs.length - 1, by have := List.length_pos.mpr hxs; omega⟩
    
      have h1 : (x :: xs).length - 1 = m + 1 := by simp [hm]
      rw [h1, List.getLastD_cons]
      have h2 : (x :: xs).getD (m + 1) d = xs.getD m d := by simp [List.getD]
      rw [h2]
      have h3 : xs.getD (xs.length - 1) d = xs.getLastD x := ih d x hxs
      rw [hm] at h3
      simpa using h3

lemma handleUndo_iterate : ∀ (k : Nat) (st : AppState), k ≤ st.historyStep →
    (handleUndo^[k] st).history = st.history ∧
    (handleUndo^[k] st).historyStep = st.historyStep - k ∧
    (0 < k → (handleUndo^[k] st).annotations = st.history.getD (st.historyStep - k) []) := by
  intro k
  induction k with
  | zero => intro st _; simp
  | succ k ih =>
    intro st hk
    obtain ⟨hh, hs, _⟩ := ih st (by omega)
    have hpos : 0 < (handleUndo^[k] st).historyStep := by rw [hs]; omega
    have hstep : handleUndo^[k + 1] st =
        { handleUndo^[k] st with
            historyStep := (handleUndo^[k] st).historyStep - 1,
            annotations :=
              (handleUndo^[k] st).history.getD ((handleUndo^[k] st).historyStep - 1) [] } := by
      rw [Function.iterate_succ_apply']
      simp only [handleUndo]
      rw [if_pos hpos]
    rw [hstep]
    refine ⟨hh, ?_, fun _ => ?_⟩
    · show (handleUndo^[k] st).historyStep - 1 = st.historyStep - (k + 1)
      omega
    · show (handleUndo^[k] st).history.getD ((handleUndo^[k] st).historyStep - 1) [] =
        st.history.getD (st.historyStep - (k + 1)) []
      have hidx : st.historyStep - k - 1 = st.historyStep - (k + 1) := by omega
      rw [hh, hs, hidx]

lemma handleRedo_iterate : ∀ (k : Nat) (st : AppState),
    st.historyStep + k + 1 ≤ st.history.length →
    (handleRedo^[k] st).history = st.history ∧
    (handleRedo^[k] st).historyStep = st.historyStep + k ∧
    (0 < k → (handleRedo^[k] st).annotations = st.history.getD (st.historyStep + k) []) := by
  intro k
  induction k with
  | zero => intro st _; simp
  | succ k ih =>
    intro st hk
    obtain ⟨hh, hs, _⟩ := ih st (by omega)
    have hcond : (handleRedo^[k] st).historyStep < (handleRedo^[k] st).history.length - 1 := by
      rw [hh, hs]; omega
    have hstep : handleRedo^[k + 1] st =
        { handleRedo^[k] st with
            historyStep := (handleRedo^[k] st).historyStep + 1,
            annotations :=
              (handleRedo^[k] st).history.getD ((handleRedo^[k] st).historyStep + 1) [] } := by
      rw [Function.iterate_succ_apply']
      simp only [handleRedo]
      rw [if_pos hcond]
    rw [hstep]
    refine ⟨hh, ?_, fun _ => ?_⟩
    · show (handleRedo^[k] st).historyStep + 1 = st.historyStep + (k + 1)
      omega
    · show (handleRedo^[k] st).history.getD ((handleRedo^[k] st).historyStep + 1) [] =
        st.history.getD (st.historyStep + (k + 1)) []
      have hidx : st.historyStep + k + 1 = st.historyStep + (k + 1) := by omega
      rw [hh, hs, hidx]

lemma commitList_spec : ∀ (l : List (List Annotation)) (st : AppState),
    st.historyStep + 1 ≤ st.history.length →
    (commitList l st).history =
      (if l = [] then st.history else st.history.take (st.historyStep + 1) ++ l) ∧
    (commitList l st).historyStep = st.historyStep + l.length ∧
    (commitList l st).annotations = l.getLastD st.annotations := by
  intro l
  induction l with
  | nil => intro st _; simp [commitList]
  | cons c cs ih =>
    intro st hinv
    have hcommit : commitList (c :: cs) st = commitList cs (commitSnapshot c st) := rfl
    have h1 : (commitSnapshot c st).history = st.history.take (st.historyStep + 1) ++ [c] := rfl
    have h2 : (commitSnapshot c st).historyStep = st.historyStep + 1 := by
      simp [commitSnapshot, saveToHistory]
      omega
    have h3 : (commitSnapshot c st).annotations = c := rfl
    have hinv' : (commitSnapshot c st).historyStep + 1 ≤ (commitSnapshot c st).history.length := by
      rw [h1, h2]
      simp [List.length_take]
      omega
    obtain ⟨ih1, ih2, ih3⟩ := ih (commitSnapshot c st) hinv'
    refine ⟨?_, ?_, ?_⟩
    · rw [hcommit, ih1, h1, h2]
      by_cases hcs : cs = []
      · subst hcs; simp
      · simp only [hcs, if_false]
        have hlen3 : (st.history.take (st.historyStep + 1) ++ [c]).length
            = st.historyStep + 2 := by
          simp [List.length_take]
          omega
        rw [List.take_of_length_le (le_of_eq hlen3)]
        simp
    · rw [hcommit, ih2, h2]
      simp [List.length_cons]
      omega
    · rw [hcommit, ih3, h3]
      exact (List.getLastD_cons ..).symm

/-- Claim C5 (confirmed): starting from any state satisfying the app's
history invariant (cursor < history.length), committing any non-empty
sequence of N snapshots, then performing handleUndo N times followed by
handleRedo N times, makes the working collection exactly the last
committed snapshot. -/
theorem c5_round_trip (st : AppState) (l : List (List Annotation))
    (hinv : st.historyStep + 1 ≤ st.history.length) (hne : l ≠ []) :
    (handleRedo^[l.length] (handleUndo^[l.length] (commitList l st))).annotations
      = l.getLastD [] := by
  obtain ⟨hh, hs, _⟩ := commitList_spec l st hinv
  rw [if_neg hne] at hh
  have hN : 0 < l.length := List.length_pos.mpr hne
  have hMlen : (commitList l st).history.length = st.historyStep + 1 + l.length := by
    rw [hh]
    simp [List.length_take]
    omega
  obtain ⟨uh, us, _⟩ := handleUndo_iterate l.length (commitList l st) (by omega)
  have hUlen : (handleUndo^[l.length] (commitList l st)).history.length
      = (commitList l st).history.length := by rw [uh]
  obtain ⟨rh, rs, ra⟩ := handleRedo_iterate l.length (handleUndo^[l.length] (commitList l st))
    (by omega)
  rw [ra hN, uh, us, hs, hh]
  have hidx : st.historyStep + l.length - l.length + l.length = st.historyStep + l.length := by
    omega
  rw [hidx]
  have hlen2 : (st.history.take (st.historyStep + 1)).length = st.historyStep + 1 := by
    simp [List.length_take]
    omega
  rw [List.getD_eq_getElem?_getD, List.getElem?_append_right (by omega),
      ← List.getD_eq_getElem?_getD]
  have hidx2 : st.historyStep + l.length - (st.history.take (st.historyStep + 1)).length
      = l.length - 1 := by rw [hlen2]; omega
  rw [hidx2]
  exact getD_last l [] [] hne

/-- Witness for C5: two commits from the initial state, undone twice and
redone twice, restore the second snapshot. -/
theorem c5_witness :
    stInit.historyStep + 1 ≤ stInit.history.length ∧
    (handleRedo^[lC5.length] (handleUndo^[lC5.length] (commitList lC5 stInit))).annotations
      = lC5.getLastD [] :=
  ⟨by decide, c5_round_trip stInit lC5 (by decide) (by decide)⟩

/-- Claim C7 (corrected): at pointer-up, a brush gesture that accumulated
zero coordinates and a shape gesture whose live preview never reached 4
coordinates (a click-release without a drag) are silently discarded —
the annotation collection, the history log and the cursor are unchanged.
(The original claim fails for a 4-coordinate preview whose endpoints
coincide: that zero-size shape IS committed, see the counterexample.) -/
theorem c7_amended (st : AppState) (newId : String) :
    (st.tool = Tool.brush → st.currentPoints = [] →
     st.resizeState.isResizing = false → st.dragState.isDragging = false →
       (handleMouseUp newId st).annotations = st.annotations ∧
       (handleMouseUp newId st).history = st.history ∧
       (handleMouseUp newId st).historyStep = st.historyStep) ∧
    (st.tool = Tool.shape → st.currentPoints.length ≠ 4 →
     st.resizeState.isResizing = false → st.dragState.isDragging = false →
       (handleMouseUp newId st).annotations = st.annotations ∧
       (handleMouseUp newId st).history = st.history ∧
       (handleMouseUp newId st).historyStep = st.historyStep) := by
  constructor
  · intro ht hcp hrs hdg
    cases hd : st.isDrawing
    · simp [handleMouseUp, hd]
    · simp [handleMouseUp, hd, ht, hcp, hrs, hdg]
  · intro ht hcp hrs hdg
    cases hd : st.isDrawing
    · simp [handleMouseUp, hd]
    · simp [handleMouseUp, hd, ht, hcp, hrs, hdg]

/-- Witness for C7: a zero-point brush gesture and a 2-coordinate shape
click both leave the collection unchanged at pointer-up. -/
theorem c7_witness :
    (handleMouseUp "w1" stBrushEmpty).annotations = stBrushEmpty.annotations ∧
    (handleMouseUp "w2" stShapeClick).annotations = stShapeClick.annotations :=
  ⟨((c7_amended stBrushEmpty "w1").1 (by decide) (by decide) (by decide) (by decide)).1,
   ((c7_amended stShapeClick "w2").2 (by decide) (by decide) (by decide) (by decide)).1⟩

/-- Counterexample for C7 as stated: a shape drag whose 4-value preview
starts and ends at (10,10) commits a zero-size shape at pointer-up — the
annotation with width 0 and height 0 is added to the collection and
pushed to history. -/
theorem c7_counterexample :
    (handleMouseUp "id1" stC7).annotations = [zeroShapeC7] ∧
    (handleMouseUp "id1" stC7).history = [[], [zeroShapeC7]] ∧
    (handleMouseUp "id1" stC7).historyStep = 1 ∧
    Annotation.widthOf zeroShapeC7 = some 0 ∧
    Annotation.heightOf zeroShapeC7 = some 0 := by
  norm_num +decide [handleMouseUp, stC7, stInit, createAnnotation, zeroShapeC7,
    Annotation.widthOf, Annotation.heightOf]

/-- Claim C8 (corrected): handleDuplicate appends, for each selected
annotation in order, a clone carrying the generated id with
isSelected/isEditing reset to false and all payload fields preserved, and
commits the new collection to history.  The clone's stored x/y fields —
present only on the shape, text and image variants — are offset by +20
each, while point lists are never offset: xOf/yOf map under (+20) and
pointsOf is unchanged.  Hence a duplicated stroke, whose geometry lives
entirely in its points, is NOT visually offset (see the counterexample),
and neither are the drawn points of line-based shapes. -/
theorem c8_amended (freshId : Annotation → String) (st : AppState) :
    (handleDuplicate freshId st).annotations =
      st.annotations ++ (st.annotations.filter fun a => (a.baseOf).isSelected).map
        (fun a => dupOne (freshId a) a) ∧
    (handleDuplicate freshId st).history =
      st.history.take (st.historyStep + 1) ++
        [st.annotations ++ (st.annotations.filter fun a => (a.baseOf).isSelected).map
          (fun a => dupOne (freshId a) a)] ∧
    ∀ (nid : String) (a : Annotation),
      ((dupOne nid a).baseOf).id = nid ∧
      ((dupOne nid a).baseOf).isSelected = false ∧
      ((dupOne nid a).baseOf).isEditing = false ∧
      ((dupOne nid a).baseOf).color = (a.baseOf).color ∧
      ((dupOne nid a).baseOf).strokeWidth = (a.baseOf).strokeWidth ∧
      (dupOne nid a).kindOf = a.kindOf ∧
      (dupOne nid a).shapeTypeOf = a.shapeTypeOf ∧
      (dupOne nid a).pointsOf = a.pointsOf ∧
      (dupOne nid a).xOf = (a.xOf).map (fun t => t + 20) ∧
      (dupOne nid a).yOf = (a.yOf).map (fun t => t + 20) ∧
      (dupOne nid a).widthOf = a.widthOf ∧
      (dupOne nid a).heightOf = a.heightOf ∧
      (dupOne nid a).textOf = a.textOf ∧
      (dupOne nid a).fontSizeOf = a.fontSizeOf ∧
      (dupOne nid a).imageRefOf = a.imageRefOf := by
  refine ⟨rfl, rfl, ?_⟩
  intro nid a
  cases a <;>
    simp [dupOne, createAnnotation, Annotation.baseOf, Annotation.kindOf,
      Annotation.shapeTypeOf, Annotation.pointsOf, Annotation.xOf, Annotation.yOf,
      Annotation.widthOf, Annotation.heightOf, Annotation.textOf, Annotation.fontSizeOf,
      Annotation.imageRefOf]

/-- Counterexample for C8 as stated: duplicating a selected stroke
appends a clone whose point list equals the original's — the visible
geometry is offset by (0,0), not by (+20,+20). -/
theorem c8_counterexample :
    (handleDuplicate (fun _ => "dup1") stC8).annotations = [strokeSel, strokeDupC8] ∧
    Annotation.pointsOf strokeDupC8 = Annotation.pointsOf strokeSel ∧
    strokeDupC8 ≠ .stroke ⟨"dup1", "#ff0000", 3, false, false⟩ [(20, 20), (30, 30)] := by
  refine ⟨?_, ?_, ?_⟩
  · norm_num [handleDuplicate, stC8, stInit, dupOne, createAnnotation, strokeSel, baseSel,
      strokeDupC8, saveToHistory, Annotation.baseOf]
  · norm_num [ Annotation.pointsOf, strokeDupC8, strokeSel]
  · norm_num [strokeDupC8]

lemma distSq_horizontal (x y a b c : ℚ) (hax : a ≤ x) (hxb : x ≤ b) :
    distanceToLineSegmentSq x y a c b c = (y - c) * (y - c) := by
  simp only [distanceToLineSegmentSq, sub_self, mul_zero, add_zero, zero_mul]
  by_cases hab : b - a = 0
  · have hba : b = a := by linarith
    subst hba
    have hxa : x = b := le_antisymm hxb hax
    subst hxa
    norm_num
  · have hpos : 0 < b - a := by
      have hle : a ≤ b := hax.trans hxb
      rcases lt_or_eq_of_le hle with h | h
      · linarith
      · exact absurd (by rw [h]; ring) hab
    have hlen : (b - a) * (b - a) ≠ 0 := mul_ne_zero hab hab
    rw [if_pos hlen]
    have hpv : (x - a) * (b - a) / ((b - a) * (b - a)) = (x - a) / (b - a) :=
      mul_div_mul_right _ _ hab
    rw [hpv]
    rw [if_neg (not_lt.mpr (div_nonneg (by linarith) hpos.le))]
    rw [if_neg (not_lt.mpr ((div_le_one hpos).mpr (by linarith)))]
    rw [div_mul_cancel₀ _ hab]
    ring

lemma distSq_vertical (x y c a b : ℚ) (hay : a ≤ y) (hyb : y ≤ b) :
    distanceToLineSegmentSq x y c a c b = (x - c) * (x - c) := by
  simp only [distanceToLineSegmentSq, sub_self, mul_zero, add_zero, zero_mul, zero_add]
  by_cases hab : b - a = 0
  · have hba : b = a := by linarith
    subst hba
    have hya : y = b := le_antisymm hyb hay
    subst hya
    norm_num
  · have hpos : 0 < b - a := by
      have hle : a ≤ b := hay.trans hyb
      rcases lt_or_eq_of_le hle with h | h
      · linarith
      · exact absurd (by rw [h]; ring) hab
    have hlen : (b - a) * (b - a) ≠ 0 := mul_ne_zero hab hab
    rw [if_pos hlen]
    have hpv : (y - a) * (b - a) / ((b - a) * (b - a)) = (y - a) / (b - a) :=
      mul_div_mul_right _ _ hab
    rw [hpv]
    rw [if_neg (not_lt.mpr (div_nonneg (by linarith) hpos.le))]
    rw [if_neg (not_lt.mpr ((div_le_one hpos).mpr (by linarith)))]
    rw [div_mul_cancel₀ _ hab]
    ring

lemma sq_le_100_of_abs_le (t : ℚ) (h : |t| ≤ 10) : t * t ≤ 100 := by
  have h1 : |t| * |t| ≤ 10 * 10 := mul_self_le_mul_self (abs_nonneg t) h
  rw [abs_mul_abs_self] at h1
  linarith

lemma abs_le_10_of_sq_le_100 (t : ℚ) (h : t * t ≤ 100) : |t| ≤ 10 := by
  by_contra hc
  push_neg at hc
  have h2 : 10 * 10 < |t| * |t| := by
    apply mul_lt_mul'' hc hc <;> norm_num
  rw [abs_mul_abs_self] at h2
  linarith

/-- Claim C9 (corrected): the rectangle hit test implies Euclidean
nearness — a hit is always within the 10px (squared: 100) point-to-segment
distance of one of the 4 edges — and conversely every point of the closed
rectangle within the threshold of an edge hits; a point strictly inside,
farther than the threshold from every edge, does not hit.  The original
"exactly when" fails only for exterior points diagonally off a corner
(see the counterexample). -/
theorem c9_amended (bb : AnnBase) (rx ry rw rh x y : ℚ) (pts : List (ℚ × ℚ)) :
    ( isPointInAnnotation x y (.shape bb ShapeType.rectangle rx ry rw rh pts) = true →
      specNearRectEdgeSq x y rx ry rw rh = true) ∧
    (rx ≤ x → x ≤ rx + rw → ry ≤ y → y ≤ ry + rh →
      specNearRectEdgeSq x y rx ry rw rh = true →
      isPointInAnnotation x y (.shape bb ShapeType.rectangle rx ry rw rh pts) = true) ∧
    (rx ≤ x → x ≤ rx + rw → ry ≤ y → y ≤ ry + rh →
      10 < y - ry → 10 < ry + rh - y → 10 < x - rx → 10 < rx + rw - x →
      isPointInAnnotation x y (.shape bb ShapeType.rectangle rx ry rw rh pts) = false) := by
  simp only [ isPointInAnnotation, specNearRectEdgeSq, Bool.or_eq_true, decide_eq_true_eq,
    decide_eq_false_iff_not]
  refine ⟨?_, ?_, ?_⟩
  · rintro (⟨h10, hx1, hx2⟩ | ⟨h10, hx1, hx2⟩ | ⟨h10, hy1, hy2⟩ | ⟨h10, hy1, hy2⟩)
    · refine Or.inl (Or.inl (Or.inl ?_))
      rw [distSq_horizontal x y rx (rx + rw) ry hx1 hx2]
      exact sq_le_100_of_abs_le _ h10
    · refine Or.inl (Or.inl (Or.inr ?_))
      rw [distSq_horizontal x y rx (rx + rw) (ry + rh) hx1 hx2]
      exact sq_le_100_of_abs_le _ h10
    · refine Or.inl (Or.inr ?_)
      rw [distSq_vertical x y rx ry (ry + rh) hy1 hy2]
      exact sq_le_100_of_abs_le _ h10
    · refine Or.inr ?_
      rw [distSq_vertical x y (rx + rw) ry (ry + rh) hy1 hy2]
      exact sq_le_100_of_abs_le _ h10
  · intro hx1 hx2 hy1 hy2 hnear
    rcases hnear with ((h | h) | h) | h
    · rw [distSq_horizontal x y rx (rx + rw) ry hx1 hx2] at h
      exact Or.inl ⟨abs_le_10_of_sq_le_100 _ h, hx1, hx2⟩
    · rw [distSq_horizontal x y rx (rx + rw) (ry + rh) hx1 hx2] at h
      exact Or.inr (Or.inl ⟨abs_le_10_of_sq_le_100 _ h, hx1, hx2⟩)
    · rw [distSq_vertical x y rx ry (ry + rh) hy1 hy2] at h
      exact Or.inr (Or.inr (Or.inl ⟨abs_le_10_of_sq_le_100 _ h, hy1, hy2⟩))
    · rw [distSq_vertical x y (rx + rw) ry (ry + rh) hy1 hy2] at h
      exact Or.inr (Or.inr (Or.inr ⟨abs_le_10_of_sq_le_100 _ h, hy1, hy2⟩))
  · intro hx1 hx2 hy1 hy2 h1 h2 h3 h4
    rintro (⟨ha, _, _⟩ | ⟨ha, _, _⟩ | ⟨ha, _, _⟩ | ⟨ha, _, _⟩)
    · rw [abs_of_nonneg (by linarith : (0 : ℚ) ≤ y - ry)] at ha
      linarith
    · rw [abs_of_nonpos (by linarith : y - (ry + rh) ≤ 0)] at ha
      rw [neg_sub] at ha
      linarith
    · rw [abs_of_nonneg (by linarith : (0 : ℚ) ≤ x - rx)] at ha
      linarith
    · rw [abs_of_nonpos (by linarith : x - (rx + rw) ≤ 0)] at ha
      rw [neg_sub] at ha
      linarith

/-- Counterexample for C9 as stated: the exterior point (-3,-3) is
within Euclidean distance sqrt(18) < 10 of both the top and the left edge
of the rectangle (0,0,100,100), yet the hit test returns false. -/
theorem c9_counterexample :
    specNearRectEdgeSq (-3) (-3) 0 0 100 100 = true ∧
    isPointInAnnotation (-3) (-3) rectC9 = false := by
  norm_num [specNearRectEdgeSq, isPointInAnnotation, rectC9, distanceToLineSegmentSq]

/-- Witness for C9 at the in-rectangle point (5,3), within the threshold
of the top edge of the rectangle (0,0,100,100). -/
theorem c9_witness :
    specNearRectEdgeSq 5 3 0 0 100 100 = true ∧
    isPointInAnnotation 5 3 rectC9 = true :=
  ⟨by norm_num [specNearRectEdgeSq, distanceToLineSegmentSq],
   by
    have h := (c9_amended baseA 0 0 100 100 5 3 [(0, 0), (100, 100)]).2.1
      (by norm_num) (by norm_num) (by norm_num) (by norm_num)
      (by norm_num [specNearRectEdgeSq, distanceToLineSegmentSq])
    exact h⟩

lemma min_affine (u r a c : ℚ) (hr : 0 ≤ r) :
    min (u + (a - u) * r) (u + (c - u) * r) = u + (min a c - u) * r := by
  rcases le_total a c with h | h
  · have hm := mul_le_mul_of_nonneg_right (sub_le_sub_right h u) hr
    rw [min_eq_left h, min_eq_left (by linarith)]
  · have hm := mul_le_mul_of_nonneg_right (sub_le_sub_right h u) hr
    rw [min_eq_right h, min_eq_right (by linarith)]

lemma max_affine (u r a c : ℚ) (hr : 0 ≤ r) :
    max (u + (a - u) * r) (u + (c - u) * r) = u + (max a c - u) * r := by
  rcases le_total a c with h | h
  · have hm := mul_le_mul_of_nonneg_right (sub_le_sub_right h u) hr
    rw [max_eq_right h, max_eq_right (by linarith)]
  · have hm := mul_le_mul_of_nonneg_right (sub_le_sub_right h u) hr
    rw [max_eq_left h, max_eq_left (by linarith)]

lemma foldl_min_affine (u r : ℚ) (hr : 0 ≤ r) :
    ∀ (l : List ℚ) (a : ℚ),
      (l.map fun t => u + (t - u) * r).foldl min (u + (a - u) * r)
        = u + (l.foldl min a - u) * r := by
  intro l
  induction l with
  | nil => intro a; simp
  | cons q qs ih =>
    intro a
    simp only [List.map_cons, List.foldl_cons]
    rw [min_affine u r a q hr, ih (min a q)]

lemma foldl_max_affine (u r : ℚ) (hr : 0 ≤ r) :
    ∀ (l : List ℚ) (a : ℚ),
      (l.map fun t => u + (t - u) * r).foldl max (u + (a - u) * r)
        = u + (l.foldl max a - u) * r := by
  intro l
  induction l with
  | nil => intro a; simp
  | cons q qs ih =>
    intro a
    simp only [List.map_cons, List.foldl_cons]
    rw [max_affine u r a q hr, ih (max a q)]

lemma listMin_map_affine (u r : ℚ) (hr : 0 ≤ r) (l : List ℚ) (hl : l ≠ []) :
    listMin (l.map fun t => u + (t - u) * r) = u + (listMin l - u) * r := by
  cases l with
  | nil => exact absurd rfl hl
  | cons q qs =>
    simp only [List.map_cons, listMin]
    exact foldl_min_affine u r hr qs q

lemma listMax_map_affine (u r : ℚ) (hr : 0 ≤ r) (l : List ℚ) (hl : l ≠ []) :
    listMax (l.map fun t => u + (t - u) * r) = u + (listMax l - u) * r := by
  cases l with
  | nil => exact absurd rfl hl
  | cons q qs =>
    simp only [List.map_cons, listMax]
    exact foldl_max_affine u r hr qs q

lemma map_fst_scale (ux uy wr hr : ℚ) (pts : List (ℚ × ℚ)) :
    ((pts.map fun q => (ux + (q.1 - ux) * wr, uy + (q.2 - uy) * hr)).map Prod.fst)
      = (pts.map Prod.fst).map fun t => ux + (t - ux) * wr := by
  rw [List.map_map, List.map_map]
  rfl

lemma map_snd_scale (ux uy wr hr : ℚ) (pts : List (ℚ × ℚ)) :
    ((pts.map fun q => (ux + (q.1 - ux) * wr, uy + (q.2 - uy) * hr)).map Prod.snd)
      = (pts.map Prod.snd).map fun t => uy + (t - uy) * hr := by
  rw [List.map_map, List.map_map]
  rfl

lemma boundsOfPoints_map (ux uy wr hr : ℚ) (hwr : 0 ≤ wr) (hhr : 0 ≤ hr)
    (pts : List (ℚ × ℚ)) (hpts : pts ≠ []) :
    boundsOfPoints (pts.map fun q => (ux + (q.1 - ux) * wr, uy + (q.2 - uy) * hr)) =
      ⟨ux + ((boundsOfPoints pts).x - ux) * wr,
       uy + ((boundsOfPoints pts).y - uy) * hr,
       (boundsOfPoints pts).width * wr,
       (boundsOfPoints pts).height * hr⟩ := by
  cases pts with
  | nil => exact absurd rfl hpts
  | cons p ps =>
    simp only [List.map_cons, boundsOfPoints]
    rw [map_fst_scale ux uy wr hr ps, map_snd_scale ux uy wr hr ps]
    rw [show (ux + (p.1 - ux) * wr) :: (ps.map Prod.fst).map (fun t => ux + (t - ux) * wr)
          = (p.1 :: ps.map Prod.fst).map (fun t => ux + (t - ux) * wr) from rfl]
    rw [show (uy + (p.2 - uy) * hr) :: (ps.map Prod.snd).map (fun t => uy + (t - uy) * hr)
          = (p.2 :: ps.map Prod.snd).map (fun t => uy + (t - uy) * hr) from rfl]
    rw [listMin_map_affine ux wr hwr _ (List.cons_ne_nil _ _),
        listMax_map_affine ux wr hwr _ (List.cons_ne_nil _ _),
        listMin_map_affine uy hr hhr _ (List.cons_ne_nil _ _),
        listMax_map_affine uy hr hhr _ (List.cons_ne_nil _ _)]
    simp only [Bounds.mk.injEq, true_and]
    exact ⟨by ring, by ring⟩

lemma resizeParams_ge8 (i : Nat) (h : 8 ≤ i) (b : Bounds) (nx ny : ℚ) :
    resizeParams i b nx ny = ((b.x, b.y), (1, 1)) := by
  obtain ⟨n, rfl⟩ : ∃ n, i = n + 8 := ⟨i - 8, by omega⟩
  rfl

lemma resizeOrigin_ge8 (i : Nat) (h : 8 ≤ i) (ux uy nw nh : ℚ) :
    resizeOrigin i ux uy nw nh = (ux, uy) := by
  obtain ⟨n, rfl⟩ : ∃ n, i = n + 8 := ⟨i - 8, by omega⟩
  rfl

lemma refCorner_ge8 (i : Nat) (h : 8 ≤ i) (b : Bounds) :
    refCorner i b = (b.x, b.y) := by
  obtain ⟨n, rfl⟩ : ∃ n, i = n + 8 := ⟨i - 8, by omega⟩
  rfl

lemma corner_fix_points (i : Nat) (b : Bounds) (nx ny : ℚ)
    (hwr : 0 ≤ (resizeParams i b nx ny).2.1) (hhr : 0 ≤ (resizeParams i b nx ny).2.2) :
    refCorner i
      ⟨(resizeParams i b nx ny).1.1 +
         (b.x - (resizeParams i b nx ny).1.1) * (resizeParams i b nx ny).2.1,
       (resizeParams i b nx ny).1.2 +
         (b.y - (resizeParams i b nx ny).1.2) * (resizeParams i b nx ny).2.2,
       b.width * (resizeParams i b nx ny).2.1,
       b.height * (resizeParams i b nx ny).2.2⟩ = refCorner i b := by
  rcases Nat.lt_or_ge i 8 with h8 | h8
  · interval_cases i <;> simp only [resizeParams, refCorner] <;> congr 1 <;> ring
  · obtain ⟨n, rfl⟩ : ∃ n, i = n + 8 := ⟨i - 8, by omega⟩
    rw [resizeParams_ge8 (n + 8) (by omega)]
    rw [refCorner_ge8 (n + 8) (by omega), refCorner_ge8 (n + 8) (by omega)]
    dsimp only
    congr 1 <;> ring

lemma corner_fix_rect (i : Nat) (b : Bounds) (nx ny : ℚ) :
    refCorner i
      ⟨(resizeOrigin i (resizeParams i b nx ny).1.1 (resizeParams i b nx ny).1.2
          (b.width * (resizeParams i b nx ny).2.1) (b.height * (resizeParams i b nx ny).2.2)).1,
       (resizeOrigin i (resizeParams i b nx ny).1.1 (resizeParams i b nx ny).1.2
          (b.width * (resizeParams i b nx ny).2.1) (b.height * (resizeParams i b nx ny).2.2)).2,
       b.width * (resizeParams i b nx ny).2.1,
       b.height * (resizeParams i b nx ny).2.2⟩ = refCorner i b := by
  rcases Nat.lt_or_ge i 8 with h8 | h8
  · interval_cases i <;> simp only [resizeParams, resizeOrigin, refCorner] <;>
      congr 1 <;> ring
  · obtain ⟨n, rfl⟩ : ∃ n, i = n + 8 := ⟨i - 8, by omega⟩
    rw [resizeParams_ge8 (n + 8) (by omega), resizeOrigin_ge8 (n + 8) (by omega)]
    rfl

/-- Claim C2 (corrected): for every annotation whose bounds have positive
width and height, every anchor index and pointer position, the designated
unchanged corner of the bounds (per the anchor table) is at the same
world-space position after resizeAnnotation as before — exactly, in
rational arithmetic — provided the annotation is of the rectangle-family
(rectangle/ellipse/text/image, where it holds unconditionally) or both
resize rates are nonnegative.  For point-based annotations with a negative
rate (inverted drag) the fixpoint fails, see the counterexample. -/
theorem c2_amended (a : Annotation) (i : Nat) (nx ny : ℚ)
    (hw : 0 < (calculateBounds a).width) (hh : 0 < (calculateBounds a).height)
    (hcase : isRectFamily a = true ∨
      (0 ≤ (resizeParams i (calculateBounds a) nx ny).2.1 ∧
       0 ≤ (resizeParams i (calculateBounds a) nx ny).2.2)) :
    refCorner i (calculateBounds ( resizeAnnotation i a nx ny)) =
      refCorner i (calculateBounds a) := by
  cases a with
  | stroke base pts =>
    have hrates : 0 ≤ (resizeParams i (boundsOfPoints pts) nx ny).2.1 ∧
        0 ≤ (resizeParams i (boundsOfPoints pts) nx ny).2.2 := by
      rcases hcase with hfam | hr
      · simp [isRectFamily] at hfam
      · simpa [calculateBounds] using hr
    obtain ⟨hwr, hhr⟩ := hrates
    have hpts : pts ≠ [] := by
      intro hnil
      rw [hnil] at hw
      simp [calculateBounds, boundsOfPoints] at hw
    simp only [ resizeAnnotation, calculateBounds]
    rw [boundsOfPoints_map _ _ _ _ hwr hhr pts hpts]
    exact corner_fix_points i (boundsOfPoints pts) nx ny hwr hhr
  | shape base st x y w h pts =>
    cases st with
    | rectangle =>
      simp [ resizeAnnotation, calculateBounds]
      exact corner_fix_rect i ⟨x, y, w, h⟩ nx ny
    | ellipse =>
      simp [ resizeAnnotation, calculateBounds]
      exact corner_fix_rect i ⟨x, y, w, h⟩ nx ny
    | line =>
      have hrates : 0 ≤ (resizeParams i (boundsOfPoints pts) nx ny).2.1 ∧
          0 ≤ (resizeParams i (boundsOfPoints pts) nx ny).2.2 := by
        rcases hcase with hfam | hr
        · simp [isRectFamily] at hfam
        · simpa [calculateBounds] using hr
      obtain ⟨hwr, hhr⟩ := hrates
      have hpts : pts ≠ [] := by
        intro hnil
        rw [hnil] at hw
        simp [calculateBounds, boundsOfPoints] at hw
      simp [ resizeAnnotation, calculateBounds]
      rw [boundsOfPoints_map _ _ _ _ hwr hhr pts hpts]
      exact corner_fix_points i (boundsOfPoints pts) nx ny hwr hhr
    | polygon =>
      have hrates : 0 ≤ (resizeParams i (boundsOfPoints pts) nx ny).2.1 ∧
          0 ≤ (resizeParams i (boundsOfPoints pts) nx ny).2.2 := by
        rcases hcase with hfam | hr
        · simp [isRectFamily] at hfam
        · simpa [calculateBounds] using hr
      obtain ⟨hwr, hhr⟩ := hrates
      have hpts : pts ≠ [] := by
        intro hnil
        rw [hnil] at hw
        simp [calculateBounds, boundsOfPoints] at hw
      simp [ resizeAnnotation, calculateBounds]
      rw [boundsOfPoints_map _ _ _ _ hwr hhr pts hpts]
      exact corner_fix_points i (boundsOfPoints pts) nx ny hwr hhr
    | polyline =>
      have hrates : 0 ≤ (resizeParams i (boundsOfPoints pts) nx ny).2.1 ∧
          0 ≤ (resizeParams i (boundsOfPoints pts) nx ny).2.2 := by
        rcases hcase with hfam | hr
        · simp [isRectFamily] at hfam
        · simpa [calculateBounds] using hr
      obtain ⟨hwr, hhr⟩ := hrates
      have hpts : pts ≠ [] := by
        intro hnil
        rw [hnil] at hw
        simp [calculateBounds, boundsOfPoints] at hw
      simp [ resizeAnnotation, calculateBounds]
      rw [boundsOfPoints_map _ _ _ _ hwr hhr pts hpts]
      exact corner_fix_points i (boundsOfPoints pts) nx ny hwr hhr
    | bezier =>
      have hrates : 0 ≤ (resizeParams i (boundsOfPoints pts) nx ny).2.1 ∧
          0 ≤ (resizeParams i (boundsOfPoints pts) nx ny).2.2 := by
        rcases hcase with hfam | hr
        · simp [isRectFamily] at hfam
        · simpa [calculateBounds] using hr
      obtain ⟨hwr, hhr⟩ := hrates
      have hpts : pts ≠ [] := by
        intro hnil
        rw [hnil] at hw
        simp [calculateBounds, boundsOfPoints] at hw
      simp [ resizeAnnotation, calculateBounds]
      rw [boundsOfPoints_map _ _ _ _ hwr hhr pts hpts]
      exact corner_fix_points i (boundsOfPoints pts) nx ny hwr hhr
  | text base t x y w h fs =>
    simp only [ resizeAnnotation, calculateBounds]
    exact corner_fix_rect i ⟨x, y, w, h⟩ nx ny
  | image base r x y w h =>
    simp only [ resizeAnnotation, calculateBounds]
    exact corner_fix_rect i ⟨x, y, w, h⟩ nx ny

/-- Counterexample for C2 as stated: the two-point stroke spanning
(0,0)-(150,150) has positive bounds, yet resizing by anchor 0 to pointer
(200,200) moves the bottom-right corner of the bounds from (150,150) to
(200,200). -/
theorem c2_counterexample :
    0 < (calculateBounds strokeC2).width ∧
    0 < (calculateBounds strokeC2).height ∧
    refCorner 0 (calculateBounds ( resizeAnnotation 0 strokeC2 200 200)) = (200, 200) ∧
    refCorner 0 (calculateBounds strokeC2) = (150, 150) ∧
    refCorner 0 (calculateBounds ( resizeAnnotation 0 strokeC2 200 200)) ≠
      refCorner 0 (calculateBounds strokeC2) := by
  refine ⟨?_, ?_, ?_, ?_, ?_⟩ <;>
    norm_num [ resizeAnnotation, calculateBounds, resizeParams, refCorner, strokeC2,
      boundsOfPoints, listMin, listMax]

/-- Witness for C2: the rectangle scenario at anchor 0, and a stroke at
anchor 4 with nonnegative rates. -/
theorem c2_witness :
    refCorner 0 (calculateBounds ( resizeAnnotation 0 rectC1 200 200)) =
      refCorner 0 (calculateBounds rectC1) ∧
    refCorner 4 (calculateBounds ( resizeAnnotation 4 strokeC2 300 300)) =
      refCorner 4 (calculateBounds strokeC2) :=
  ⟨c2_amended rectC1 0 200 200
      (by norm_num [calculateBounds, rectC1])
      (by norm_num [calculateBounds, rectC1])
      (Or.inl (by norm_num [isRectFamily, rectC1])),
   c2_amended strokeC2 4 300 300
      (by norm_num [calculateBounds, strokeC2, boundsOfPoints, listMin, listMax])
      (by norm_num [calculateBounds, strokeC2, boundsOfPoints, listMin, listMax])
      (Or.inr ⟨by norm_num [resizeParams, calculateBounds, strokeC2, boundsOfPoints,
          listMin, listMax],
        by norm_num [resizeParams, calculateBounds, strokeC2, boundsOfPoints,
          listMin, listMax]⟩)⟩
